import Mathlib

/-!
Verification of the rust-http-server request/response pipeline.

This file is a shallow embedding, in Lean 4, of the parts of the server that
the checked properties talk about: the header data model (`http_header`), the
request head and `should_close` (`http_req.rs`), the response model and
builder (`http_res.rs`, `res_builder.rs`), the request head parser
(`req_parser.rs`), the MIME compatibility test (`utils.rs`) and the
path-traversal gate of `serve_static_resource` (`server.rs`).

Machine strings from the Rust side are modelled as `String` or as `List Char`
(the parser works on ASCII lines, which are character lists); byte vectors are
`List Nat`.  External collaborators (std `f32` parsing, the base64 crate, the
filesystem) are modelled explicitly where a claim depends on them.
-/

/-- Characters treated as whitespace by the ascii crate's `trim`
(space, tab, line feed, carriage return, vertical tab, form feed). -/
def isAsciiWs (c : Char) : Bool :=
  c == ' ' || c == '\t' || c == '\n' || c == '\r' || c == '\x0b' || c == '\x0c'

/-- Model of `AsciiStr::trim_start`: drop leading ascii whitespace. -/
def trimStartList (l : List Char) : List Char :=
  l.dropWhile isAsciiWs

/-- Model of `AsciiStr::trim_end`: drop trailing ascii whitespace. -/
def trimEndList (l : List Char) : List Char :=
  (l.reverse.dropWhile isAsciiWs).reverse

/-- Model of `AsciiStr::trim`: drop whitespace on both ends. -/
def trimList (l : List Char) : List Char :=
  trimEndList (trimStartList l)

/-- Model of ascii lower-casing of a single character. -/
def toAsciiLower (c : Char) : Char :=
  if 'A' ≤ c && c ≤ 'Z' then Char.ofNat (c.toNat + 32) else c

/-- Model of Rust's `str::split(c)`: split a character list at every occurrence
of `c`.  Like the Rust iterator it always yields at least one piece, and
consecutive separators yield empty pieces. -/
def splitOnChar (c : Char) : List Char → List (List Char)
  | [] => [[]]
  | x :: xs =>
    if x == c then [] :: splitOnChar c xs
    else
      match splitOnChar c xs with
      | [] => [[x]]
      | y :: ys => (x :: y) :: ys

theorem splitOnChar_ne_nil (c : Char) (l : List Char) : splitOnChar c l ≠ [] := by
  induction l with
  | nil => simp [splitOnChar]
  | cons x xs ih =>
    simp only [splitOnChar]
    by_cases h : (x == c) = true
    · simp [h]
    · simp only [h]
      cases hs : splitOnChar c xs with
      | nil => simp
      | cons y ys => simp

/-! ## Header data model (src/http_header, `name.rs` and `value.rs`) -/

/-- Http header that can be part of requests and responses. -/
inductive GeneralHeader where
  | CacheControl | Connection | Date | Pragma | Trailer
  | TransferEncoding | Upgrade | Via | Warning
  deriving DecidableEq, Repr

/-- HTTP header that can only be part of an HTTP request. -/
inductive ReqOnlyHeader where
  | Accept | AcceptCharset | AcceptEncoding | AcceptLanguage | Authorization
  | Expect | From | Host | IfMatch | IfModifiedSince | IfNoneMatch | IfRange
  | IfUnmodifiedSince | MaxForwards | ProxyAuthorization | Range | Referer
  | TE | UserAgent
  deriving DecidableEq, Repr

/-- HTTP header that can only be part of an HTTP response. -/
inductive ResOnlyHeader where
  | AcceptRanges | Age | ETag | Location | ProxyAuthenticate | RetryAfter
  | Server | Vary | WWWAuthenticate
  deriving DecidableEq, Repr

/-- HTTP header used to give information about an entity. -/
inductive EntityHeader where
  | Allow | ContentEncoding | ContentLanguage | ContentLength
  | ContentLocation | ContentMD5 | ContentRange | ContentType
  | Expires | LastModified
  deriving DecidableEq, Repr

/-- Model of `mime_guess::Mime` restricted to what the server inspects: the
top-level type and the subtype (`type_()` and `subtype()`; the crate's
parameter list is never read by the server code under verification). -/
structure MimeType where
  type_ : String
  subtype : String
  deriving DecidableEq, Repr

/-- A simple header value (no member parsing).  The string constructor is
called `Plain` as in `req_parser.rs` (the sibling `value.rs` revision names it
`String`). -/
inductive SimpleHeaderValue where
  | Number (n : Nat)
  | Plain (s : String)
  | Mime (m : MimeType)
  deriving DecidableEq, Repr

/-- Known names of header value members. -/
inductive HeaderValueMemberName where
  | Quality
  | Other (name : String)
  deriving DecidableEq, Repr

/-- Value types of header value member values.  The `Float` payload keeps the
received decimal text: `f32` parsing is delegated to the standard library in
the source and is modelled by a validity predicate where it matters. -/
inductive HeaderValueMemberValue where
  | Float (raw : String)
  | Other (value : String)
  deriving DecidableEq, Repr

/-- Attribute map of one parsed header-value member (`BTreeMap` in the source,
modelled as an association list with insert-replace semantics). -/
abbrev MemberAttrs := List (HeaderValueMemberName × HeaderValueMemberValue)

/-- Model of `BTreeMap::insert`: replace the value of an existing key,
otherwise add the pair. -/
def attrsInsert (k : HeaderValueMemberName) (v : HeaderValueMemberValue) :
    MemberAttrs → MemberAttrs
  | [] => [(k, v)]
  | (k', v') :: rest =>
    if k' == k then (k, v) :: rest else (k', v') :: attrsInsert k v rest

/-- A complex header value, with parsed members and member attributes. -/
abbrev ParsedHeaderValue := List (SimpleHeaderValue × MemberAttrs)

/-- A header value is either simple or parsed, or a pair of credentials. -/
inductive HeaderValue where
  | Simple (v : SimpleHeaderValue)
  | Parsed (v : ParsedHeaderValue)
  | Credentials (user pass : String)
  deriving DecidableEq, Repr

/-- Request header names (`ReqHeader` in the source). -/
inductive ReqHeader where
  | General (h : GeneralHeader)
  | ReqOnly (h : ReqOnlyHeader)
  | Entity (h : EntityHeader)
  | Other (name : String)
  deriving DecidableEq, Repr

/-- Response header names (`ResHeader` in the source). -/
inductive ResHeader where
  | GeneralHeader (h : GeneralHeader)
  | ResOnlyHeader (h : ResOnlyHeader)
  | EntityHeader (h : EntityHeader)
  | Other (name : String)
  deriving DecidableEq, Repr

/-! ## MIME compatibility (src/utils.rs) -/

/-- Model of `utils::are_mime_compatible`: the accepted type is a wildcard or
equals the actual type, and likewise for the subtype. -/
def are_mime_compatible (accepted actual : MimeType) : Bool :=
  (accepted.type_ == "*" || accepted.type_ == actual.type_)
    && (accepted.subtype == "*" || accepted.subtype == actual.subtype)

/-! ## Request model (src/http_req.rs) -/

/-- HTTP request verb. -/
inductive ReqVerb where
  | Get | Post | Put | Patch | Delete
  deriving DecidableEq, Repr

/-- The path of an HTTP request: URL-encoded original, decoded form, query. -/
structure ReqPath where
  original : String
  decoded : String
  query : String
  deriving DecidableEq, Repr

/-- The target can be either a path or a star for OPTIONS requests. -/
inductive ReqTarget where
  | All
  | Path (p : ReqPath)
  deriving DecidableEq, Repr

/-- Response encodings supported by the server. -/
inductive SupportedEncoding where
  | Gzip | Deflate | Zstd | Br
  deriving DecidableEq, Repr

/-- Model of `HashMap::get` on the request header map (association list,
first matching key wins). -/
def getHeader (headers : List (ReqHeader × HeaderValue)) (k : ReqHeader) :
    Option HeaderValue :=
  (headers.find? (fun p => p.1 == k)).map (fun p => p.2)

/-- HTTP Request head: first line data and headers. -/
structure ReqHead where
  verb : ReqVerb
  target : ReqTarget
  version : String
  headers : List (ReqHeader × HeaderValue)
  authentication_credentials : Option (String × String)
  encoding : Option SupportedEncoding
  deriving DecidableEq, Repr

/-- Model of `ReqHead::should_close`: the `Connection` header is present with
a simple string value equal (case-sensitively) to `close`. -/
def ReqHead.should_close (h : ReqHead) : Bool :=
  match getHeader h.headers (.General .Connection) with
  | some (.Simple (.Plain v)) => v == "close"
  | _ => false

/-! ## Claim C6 -/

/-- C6: `are_mime_compatible accepted actual` holds iff the accepted type is
`*` or equals the actual type and the accepted subtype is `*` or equals the
actual subtype; consequently compatibility is reflexive, `*/*` accepts every
MIME type, and `T/*` accepts `T/S` for every type `T` and subtype `S`. -/
theorem mime_compatible_spec :
    (∀ accepted actual : MimeType,
      are_mime_compatible accepted actual = true ↔
        ((accepted.type_ = "*" ∨ accepted.type_ = actual.type_) ∧
         (accepted.subtype = "*" ∨ accepted.subtype = actual.subtype)))
    ∧ (∀ M : MimeType, are_mime_compatible M M = true)
    ∧ (∀ M : MimeType, are_mime_compatible ⟨"*", "*"⟩ M = true)
    ∧ (∀ T S : String, are_mime_compatible ⟨T, "*"⟩ ⟨T, S⟩ = true) := by
  refine ⟨?_, ?_, ?_, ?_⟩
  · intro accepted actual
    simp [are_mime_compatible]
  · intro M
    simp [are_mime_compatible]
  · intro M
    simp [are_mime_compatible]
  · intro T S
    simp [are_mime_compatible]

/-! ## Claim C10 -/

/-- C10: `should_close` returns true iff the header map holds the `Connection`
header with the simple string value exactly `close`; in every other state
(header absent, different casing, a parsed or non-string value) it returns
false, and the connection handler in `server.rs` then keeps the connection
open. -/
theorem should_close_spec (h : ReqHead) :
    h.should_close = true ↔
      getHeader h.headers (.General .Connection) =
        some (.Simple (.Plain "close")) := by
  unfold ReqHead.should_close
  cases hv : getHeader h.headers (.General .Connection) with
  | none => simp
  | some v =>
    cases v with
    | Simple s =>
      cases s with
      | Number n => simp
      | Plain str => simp [beq_iff_eq]
      | Mime m => simp
    | Parsed l => simp
    | Credentials u p => simp


/-! ## Response model (src/http_res.rs) -/

/-- Model of `get_reason_phrase`: fixed mapping from status code to reason. -/
def get_reason_phrase (status_code : Nat) : String :=
  if status_code = 100 then "Continue"
  else if status_code = 101 then "Switching Protocols"
  else if status_code = 200 then "OK"
  else if status_code = 201 then "Created"
  else if status_code = 202 then "Accepted"
  else if status_code = 203 then "Non-Authoritative Information"
  else if status_code = 204 then "No Content"
  else if status_code = 205 then "Reset Content"
  else if status_code = 206 then "Partial Content"
  else if status_code = 300 then "Multiple Choices"
  else if status_code = 301 then "Moved Permanently"
  else if status_code = 302 then "Found"
  else if status_code = 303 then "See Other"
  else if status_code = 304 then "Not Modified"
  else if status_code = 305 then "Use Proxy"
  else if status_code = 307 then "Temporary Redirect"
  else if status_code = 400 then "Bad Request"
  else if status_code = 401 then "Unauthorized"
  else if status_code = 402 then "Payment Required"
  else if status_code = 403 then "Forbidden"
  else if status_code = 404 then "Not Found"
  else if status_code = 405 then "Method Not Allowed"
  else if status_code = 406 then "Not Acceptable"
  else if status_code = 407 then "Proxy Authentication Required"
  else if status_code = 408 then "Request Timeout"
  else if status_code = 409 then "Conflict"
  else if status_code = 410 then "Gone"
  else if status_code = 411 then "Length Required"
  else if status_code = 412 then "Precondition Failed"
  else if status_code = 413 then "Payload Too Large"
  else if status_code = 414 then "URI Too Long"
  else if status_code = 415 then "Unsupported Media Type"
  else if status_code = 416 then "Range Not Satisfiable"
  else if status_code = 417 then "Expectation Failed"
  else if status_code = 426 then "Upgrade Required"
  else if status_code = 500 then "Internal Server Error"
  else if status_code = 501 then "Not Implemented"
  else if status_code = 502 then "Bad Gateway"
  else if status_code = 503 then "Service Unavailable"
  else if status_code = 504 then "Gateway Timeout"
  else if status_code = 505 then "HTTP Version Not Supported"
  else "Unknown Error"

/-- HTTP response body: in-memory bytes, or a file stream with its recorded
length (the open file handle itself is irrelevant to the verified
properties). -/
inductive ResBody where
  | Bytes (bytes : List Nat)
  | Stream (len : Nat)
  deriving DecidableEq, Repr

/-- Model of `ResBody::len`: vector length for `Bytes`, recorded length for
`Stream`. -/
def ResBody.len : ResBody → Nat
  | .Bytes bytes => bytes.length
  | .Stream len => len

/-- Model of `ResBody::is_empty`. -/
def ResBody.is_empty : ResBody → Bool
  | .Bytes bytes => bytes.isEmpty
  | .Stream len => len == 0

/-- Model of `HashMap::insert` on the response header map: replace the value
of an existing key, otherwise append the pair. -/
def setHeaderList (k : ResHeader) (v : HeaderValue) :
    List (ResHeader × HeaderValue) → List (ResHeader × HeaderValue)
  | [] => [(k, v)]
  | (k', v') :: rest =>
    if k' == k then (k, v) :: rest else (k', v') :: setHeaderList k v rest

/-- Model of `HashMap::get` on the response header map. -/
def getResHeader (headers : List (ResHeader × HeaderValue)) (k : ResHeader) :
    Option HeaderValue :=
  (headers.find? (fun p => p.1 == k)).map (fun p => p.2)

/-- Model of `HttpRes`. -/
structure HttpRes where
  version : String
  status_code : Nat
  headers : List (ResHeader × HeaderValue)
  body : Option ResBody
  raw_headers : Option String
  deriving DecidableEq, Repr

/-- Model of `HttpRes::new`. -/
def HttpRes.new (version : String) : HttpRes :=
  { version := version, status_code := 200, headers := [], body := none,
    raw_headers := none }

/-- Model of `HttpRes::set_status`. -/
def HttpRes.set_status (res : HttpRes) (status_code : Nat) : HttpRes :=
  { res with status_code := status_code }

/-- Model of `HttpRes::has_header`. -/
def HttpRes.has_header (res : HttpRes) (name : ResHeader) : Bool :=
  res.headers.any (fun p => p.1 == name)

/-- Model of `HttpRes::set_header`. -/
def HttpRes.set_header (res : HttpRes) (name : ResHeader) (value : HeaderValue) :
    HttpRes :=
  { res with headers := setHeaderList name value res.headers }

/-- Model of `HttpRes::set_body`. -/
def HttpRes.set_body (res : HttpRes) (body : Option ResBody) : HttpRes :=
  { res with body := body }

/-! ## Response builder (src/res_builder.rs) -/

/-- Model of `ResBuilder::set_default_content_type`: content type
`text/html; charset=utf-8` (the charset parameter lives in the external MIME
value and is not inspected by the server). -/
def set_default_content_type (res : HttpRes) : HttpRes :=
  res.set_header (.EntityHeader .ContentType)
    (.Simple (.Mime ⟨"text", "html"⟩))

/-- Bytes of a string (model of `String::into_bytes`), used for error pages
and listings; only the length of the result matters to the claims. -/
def stringBytes (s : String) : List Nat :=
  (String.toUTF8 s).toList.map (fun b => b.toNat)

/-- First stage of `do_build`: inject the `Date` header (the current time is
passed in as `now`) when it is not already present. -/
def injectDate (now : String) (res : HttpRes) : HttpRes :=
  if res.has_header (.GeneralHeader .Date) then res
  else res.set_header (.GeneralHeader .Date) (.Simple (.Plain now))

/-- Second stage of `do_build`: inject the `Server` header when absent. -/
def injectServer (res : HttpRes) : HttpRes :=
  if res.has_header (.ResOnlyHeader .Server) then res
  else res.set_header (.ResOnlyHeader .Server)
    (.Simple (.Plain "rust-http-server"))

/-- Third stage of `do_build`: set `Content-Length` to the body length when a
non-empty body is present. -/
def injectContentLength (res : HttpRes) : HttpRes :=
  match res.body with
  | some body =>
    if body.is_empty then res
    else res.set_header (.EntityHeader .ContentLength)
      (.Simple (.Number body.len))
  | none => res

/-- Model of `ResBuilder::do_build`: the three injection stages in the order
of the source. -/
def do_build (now : String) (res : HttpRes) : HttpRes :=
  injectContentLength (injectServer (injectDate now res))

/-- Minimal HTML error page produced by `build_error` for a given title. -/
def errorPageHtml (title : String) : String :=
  "<!DOCTYPE html> <html lang=\"en\"> <head> <meta charset=\"utf-8\"/> <title>"
    ++ title ++ "</title> </head> <body> <h1>" ++ title
    ++ "</h1> </body> </html> \r\n"

/-- Stage of `build_error` that adds the authentication request header on a
401 status. -/
def addWwwAuthenticate (status_code : Nat) (res : HttpRes) : HttpRes :=
  if status_code = 401 then
    res.set_header (.ResOnlyHeader .WWWAuthenticate)
      (.Simple (.Plain "Basic realm=\"simple\""))
  else res

/-- Stage of `build_error` that either writes the canned HTML body (with the
default content type) or an explicit `Content-Length: 0`. -/
def addErrorContent (status_code : Nat) (with_body : Bool) (res : HttpRes) :
    HttpRes :=
  if with_body then
    (set_default_content_type res).set_body
      (some (.Bytes (stringBytes (errorPageHtml
        (toString status_code ++ " " ++ get_reason_phrase status_code)))))
  else
    res.set_header (.EntityHeader .ContentLength) (.Simple (.Plain "0"))

/-- Model of `ResBuilder::build_error`: set the status, add the 401 header if
needed, add the error content, and finalize through `do_build`. -/
def build_error (status_code : Nat) (with_body : Bool) (now : String)
    (res : HttpRes) : HttpRes :=
  do_build now
    (addErrorContent status_code with_body
      (addWwwAuthenticate status_code (res.set_status status_code)))

theorem getResHeader_setHeaderList_same (hs : List (ResHeader × HeaderValue))
    (k : ResHeader) (v : HeaderValue) :
    getResHeader (setHeaderList k v hs) k = some v := by
  induction hs with
  | nil => simp [setHeaderList, getResHeader, List.find?]
  | cons p rest ih =>
    obtain ⟨k', v'⟩ := p
    simp only [setHeaderList]
    by_cases h : (k' == k) = true
    · simp [h, getResHeader, List.find?]
    · simp only [h]
      simpa [getResHeader, List.find?, h] using ih

theorem getResHeader_setHeaderList_other (hs : List (ResHeader × HeaderValue))
    (k k' : ResHeader) (v : HeaderValue) (hne : (k' == k) = false) :
    getResHeader (setHeaderList k' v hs) k = getResHeader hs k := by
  induction hs with
  | nil => simp [setHeaderList, getResHeader, List.find?, hne]
  | cons p rest ih =>
    obtain ⟨k₀, v₀⟩ := p
    simp only [setHeaderList]
    by_cases h : (k₀ == k') = true
    · have hk : (k₀ == k) = false := by
        have : k₀ = k' := by simpa [beq_iff_eq] using h
        subst this
        exact hne
      simp [getResHeader, List.find?, h, hne, hk]
    · simp only [h]
      by_cases hk : (k₀ == k) = true
      · simp [getResHeader, List.find?, hk]
      · simpa [getResHeader, List.find?, hk] using ih

theorem set_header_body (res : HttpRes) (k : ResHeader) (v : HeaderValue) :
    (res.set_header k v).body = res.body := by
  simp [HttpRes.set_header]

theorem injectDate_body (now : String) (res : HttpRes) :
    (injectDate now res).body = res.body := by
  unfold injectDate
  by_cases h : res.has_header (.GeneralHeader .Date) <;>
    simp [h, set_header_body]

theorem injectServer_body (res : HttpRes) :
    (injectServer res).body = res.body := by
  unfold injectServer
  by_cases h : res.has_header (.ResOnlyHeader .Server) <;>
    simp [h, set_header_body]

theorem injectDate_get_of_ne (now : String) (res : HttpRes) (k : ResHeader)
    (hne : ((ResHeader.GeneralHeader .Date) == k) = false) :
    getResHeader (injectDate now res).headers k = getResHeader res.headers k := by
  unfold injectDate
  by_cases h : res.has_header (.GeneralHeader .Date)
  · simp [h]
  · simp only [h, if_false, Bool.false_eq_true, HttpRes.set_header]
    exact getResHeader_setHeaderList_other _ _ _ _ hne

theorem injectServer_get_of_ne (res : HttpRes) (k : ResHeader)
    (hne : ((ResHeader.ResOnlyHeader .Server) == k) = false) :
    getResHeader (injectServer res).headers k = getResHeader res.headers k := by
  unfold injectServer
  by_cases h : res.has_header (.ResOnlyHeader .Server)
  · simp [h]
  · simp only [h, if_false, Bool.false_eq_true, HttpRes.set_header]
    exact getResHeader_setHeaderList_other _ _ _ _ hne

/-! ## Claim C3 -/

/-- C3: for every response finalized by `do_build`, if the response carries a
non-empty body then the `Content-Length` header is present and equals the
exact byte count of the body (vector length for `Bytes`, recorded length for
`Stream`). -/
theorem do_build_content_length (res : HttpRes) (now : String) (b : ResBody)
    (hb : res.body = some b) (hne : b.is_empty = false) :
    getResHeader (do_build now res).headers (.EntityHeader .ContentLength) =
      some (.Simple (.Number b.len)) := by
  unfold do_build injectContentLength
  have hbody : (injectServer (injectDate now res)).body = some b := by
    rw [injectServer_body, injectDate_body, hb]
  rw [hbody]
  simp only [hne, Bool.false_eq_true, if_false, HttpRes.set_header]
  exact getResHeader_setHeaderList_same _ _ _

/-- Witness for C3 at a concrete response carrying a three-byte body. -/
theorem do_build_content_length_witness :
    getResHeader
      (do_build "Mon, 01 Jan 2024 00:00:00 GMT"
        { version := "HTTP/1.1", status_code := 200, headers := [],
          body := some (.Bytes [104, 105, 33]), raw_headers := none }).headers
      (.EntityHeader .ContentLength) = some (.Simple (.Number 3)) :=
  do_build_content_length
    { version := "HTTP/1.1", status_code := 200, headers := [],
      body := some (.Bytes [104, 105, 33]), raw_headers := none }
    "Mon, 01 Jan 2024 00:00:00 GMT" (.Bytes [104, 105, 33]) rfl rfl

/-! ## Claim C4 -/

/-- C4: every response built via `build_error` with status code 401 carries
the `WWW-Authenticate` header with the exact value `Basic realm="simple"`. -/
theorem build_error_401_www_authenticate (res : HttpRes) (with_body : Bool)
    (now : String) :
    getResHeader (build_error 401 with_body now res).headers
        (.ResOnlyHeader .WWWAuthenticate) =
      some (.Simple (.Plain "Basic realm=\"simple\"")) := by
  unfold build_error do_build
  have h₁ : getResHeader
      (addWwwAuthenticate 401 (res.set_status 401)).headers
      (.ResOnlyHeader .WWWAuthenticate) =
      some (.Simple (.Plain "Basic realm=\"simple\"")) := by
    unfold addWwwAuthenticate
    simp only [if_pos rfl, HttpRes.set_header]
    exact getResHeader_setHeaderList_same _ _ _
  have h₂ : getResHeader
      (addErrorContent 401 with_body
        (addWwwAuthenticate 401 (res.set_status 401))).headers
      (.ResOnlyHeader .WWWAuthenticate) =
      some (.Simple (.Plain "Basic realm=\"simple\"")) := by
    unfold addErrorContent
    by_cases hwb : with_body
    · simp only [hwb, if_pos]
      show getResHeader
        (set_default_content_type
          (addWwwAuthenticate 401 (res.set_status 401))).headers
        (.ResOnlyHeader .WWWAuthenticate) = _
      unfold set_default_content_type
      simp only [HttpRes.set_header]
      rw [getResHeader_setHeaderList_other _ _ _ _ (by decide)]
      exact h₁
    · simp only [hwb, if_false, Bool.false_eq_true, HttpRes.set_header]
      rw [getResHeader_setHeaderList_other _ _ _ _ (by decide)]
      exact h₁
  have h₃ : getResHeader
      (injectServer (injectDate now
        (addErrorContent 401 with_body
          (addWwwAuthenticate 401 (res.set_status 401))))).headers
      (.ResOnlyHeader .WWWAuthenticate) =
      some (.Simple (.Plain "Basic realm=\"simple\"")) := by
    rw [injectServer_get_of_ne _ _ (by decide),
        injectDate_get_of_ne _ _ _ (by decide)]
    exact h₂
  unfold injectContentLength
  cases hbody : (injectServer (injectDate now
      (addErrorContent 401 with_body
        (addWwwAuthenticate 401 (res.set_status 401))))).body with
  | none => exact h₃
  | some body =>
    by_cases hemp : body.is_empty
    · simp only [hemp, if_pos]
      exact h₃
    · simp only [hemp, if_false, Bool.false_eq_true, HttpRes.set_header]
      rw [getResHeader_setHeaderList_other _ _ _ _ (by decide)]
      exact h₃

/-! ## Request head parser (src/req_parser.rs) -/

/-- Errors of the request first line. -/
inductive FirstLineParsingError where
  | EmptyLine | InvalidFieldCount | InvalidVerb | InvalidTargetQuery
  | InvalidTargetEncoding
  deriving DecidableEq, Repr

/-- Errors of header parsing. -/
inductive HeaderParsingError where
  | NoColon | SpaceBeforeColon | NoComponent | InvalidMime | InvalidFloat
  | InvalidBasicCredentials | NumberParsing
  deriving DecidableEq, Repr

/-- Errors of request head parsing (the ascii error detail is dropped). -/
inductive ReqHeadParsingError where
  | Ascii
  | FirstLine (e : FirstLineParsingError)
  | Header (e : HeaderParsingError)
  | NoSupportedEncoding
  | BodyDecoding
  deriving DecidableEq, Repr

/-- Outcome of a Rust call that can succeed, fail with an error, or panic. -/
inductive ParseOutcome (α : Type) where
  | ok (a : α)
  | err (e : ReqHeadParsingError)
  | panicked
  deriving DecidableEq, Repr

/-- Raw request head accumulated by the parser: request line, header map
(`HashMap<AsciiString, AsciiString>`, modelled as an association list) and the
name of the last header seen. -/
structure RawReqHead where
  request_line : List Char
  headers : List (String × String)
  last_header_name : Option String
  deriving DecidableEq, Repr

/-- Model of `self.raw_req_head.headers.entry(name).or_default().push_str(v)`:
append `v` to the entry of `name`, creating it when absent. -/
def pushEntry (name v : String) :
    List (String × String) → List (String × String)
  | [] => [(name, v)]
  | (k, s) :: rest =>
    if k == name then (k, s ++ v) :: rest else (k, s) :: pushEntry name v rest

/-- States of the head parser. -/
inductive ReqHeadParserState where
  | RequestLine | Headers | Done
  deriving DecidableEq, Repr

/-- State record of the head parser (`ReqHeadParser` in the source; the
`parsed_req_head` field is never read before `do_parse` and is omitted). -/
structure ReqHeadParserModel where
  state : ReqHeadParserState
  raw_req_head : RawReqHead
  deriving DecidableEq, Repr

/-- Model of `line.chars().position(|c| c == ':')`. -/
def findColonIdx : List Char → Option Nat
  | [] => none
  | ch :: rest =>
    if ch == ':' then some 0 else (findColonIdx rest).map (fun i => i + 1)

theorem findColonIdx_lt (l : List Char) (i : Nat)
    (h : findColonIdx l = some i) : i < l.length := by
  induction l generalizing i with
  | nil => simp [findColonIdx] at h
  | cons ch rest ih =>
    simp only [findColonIdx] at h
    by_cases hc : (ch == ':') = true
    · simp only [hc, if_pos, Option.some.injEq] at h
      subst h
      simp
    · simp only [hc, if_false, Bool.false_eq_true] at h
      cases hr : findColonIdx rest with
      | none => rw [hr] at h; simp at h
      | some j =>
        rw [hr] at h
        simp only [Option.map_some', Option.some.injEq] at h
        subst h
        have := ih j hr
        simpa using Nat.succ_lt_succ this

theorem findColonIdx_char (l : List Char) (i : Nat)
    (h : findColonIdx l = some i) : l.getD i ' ' = ':' := by
  induction l generalizing i with
  | nil => simp [findColonIdx] at h
  | cons ch rest ih =>
    simp only [findColonIdx] at h
    by_cases hc : (ch == ':') = true
    · simp only [hc, if_pos, Option.some.injEq] at h
      subst h
      simpa [List.getD] using (beq_iff_eq.mp hc)
    · simp only [hc, if_false, Bool.false_eq_true] at h
      cases hr : findColonIdx rest with
      | none => rw [hr] at h; simp at h
      | some j =>
        rw [hr] at h
        simp only [Option.map_some', Option.some.injEq] at h
        subst h
        simpa [List.getD] using ih j hr

/-- Model of `ReqHeadParser::process_bytes`: validate that the line is ASCII,
trim it, and act according to the parser state.  In state `Headers` a line
with a colon becomes a `name: value` pair (failing with `SpaceBeforeColon`
when the character before the first colon is a space), a line without a colon
is appended to the last seen header (header folding), and failing with
`NoColon` when there is no such header.  Calling the parser in state `Done`
panics. -/
def process_bytes (p : ReqHeadParserModel) (bytes : List Char) :
    ParseOutcome ReqHeadParserModel :=
  if !(bytes.all (fun ch => ch.toNat ≤ 127)) then .err .Ascii
  else
    let line := trimList bytes
    match p.state with
    | .RequestLine =>
      if line.isEmpty then .err (.FirstLine .EmptyLine)
      else .ok { p with
                  state := .Headers,
                  raw_req_head :=
                    { p.raw_req_head with request_line := line } }
    | .Headers =>
      if line.isEmpty then .ok { p with state := .Done }
      else
        match findColonIdx line with
        | some colon_idx =>
          let name := line.take colon_idx
          let value := line.drop (colon_idx + 1)
          if name.getLast? == some ' ' then .err (.Header .SpaceBeforeColon)
          else
            let nameL := ((trimList name).map toAsciiLower).asString
            .ok { p with raw_req_head :=
              { p.raw_req_head with
                headers := pushEntry nameL (trimStartList value).asString
                  p.raw_req_head.headers,
                last_header_name := some nameL } }
        | none =>
          match p.raw_req_head.last_header_name with
          | some name =>
            .ok { p with raw_req_head :=
              { p.raw_req_head with
                headers := pushEntry name line.asString
                  p.raw_req_head.headers } }
          | none => .err (.Header .NoColon)
    | .Done => .panicked

/-- Claim-side predicate of C5 as literally stated: the line contains a colon
whose immediately preceding character is a space. -/
def lineHasSpaceColon (line : List Char) : Bool :=
  (List.range line.length).any (fun i =>
    decide (0 < i) && (line.getD i ' ' == ':') && (line.getD (i - 1) ' ' == ' '))

/-! ## Claim C5 -/

/-- C5 counterexample: the line `a:b :c` contains a colon immediately preceded
by a space, yet the parser in state `Headers` accepts it (splitting at the
first colon, which is not preceded by a space) instead of failing with
`Header(SpaceBeforeColon)` as the claim demands. -/
theorem process_headers_space_colon_counterexample :
    lineHasSpaceColon ['a', ':', 'b', ' ', ':', 'c'] = true
    ∧ process_bytes ⟨.Headers, ⟨[], [], none⟩⟩ ['a', ':', 'b', ' ', ':', 'c'] =
        .ok ⟨.Headers, ⟨[], [("a", "b :c")], some "a"⟩⟩ := by
  constructor
  · decide
  · decide

/-- C5 (amended): for every non-empty trimmed ASCII line processed in state
`Headers`: if the character immediately preceding the
first colon is a space, processing fails with `Header(SpaceBeforeColon)`; if
the line contains no colon and a last header name exists, the entire line is
appended to that header's entry; if the line contains no colon and no last
name exists, processing fails with `Header(NoColon)`. -/
theorem process_headers_spec (p : ReqHeadParserModel) (l : List Char)
    (hstate : p.state = .Headers)
    (hascii : l.all (fun ch => ch.toNat ≤ 127) = true)
    (htrim : trimList l = l)
    (hne : l ≠ []) :
    (∀ i, findColonIdx l = some i → 0 < i → l.getD (i - 1) ' ' = ' ' →
      process_bytes p l = .err (.Header .SpaceBeforeColon))
    ∧ (findColonIdx l = none →
        ∀ n, p.raw_req_head.last_header_name = some n →
          process_bytes p l =
            .ok { p with raw_req_head :=
              { p.raw_req_head with
                headers := pushEntry n l.asString p.raw_req_head.headers } })
    ∧ (findColonIdx l = none → p.raw_req_head.last_header_name = none →
        process_bytes p l = .err (.Header .NoColon)) := by
  have hempty : l.isEmpty = false := by
    cases l with
    | nil => exact absurd rfl hne
    | cons a as => rfl
  refine ⟨?_, ?_, ?_⟩
  · intro i hidx hpos hsp
    unfold process_bytes
    simp only [hascii, Bool.not_true, Bool.false_eq_true, if_false, htrim,
      hstate, hempty, hidx]
    have hlast : (l.take i).getLast? = some ' ' := by
      have hlt : i < l.length := findColonIdx_lt l i hidx
      have hlen : (l.take i).length = i := by
        simp [Nat.min_eq_left (Nat.le_of_lt hlt)]
      rw [List.getLast?_eq_getElem? _]
      rw [hlen]
      have hi1 : i - 1 < i := by omega
      rw [List.getElem?_take_of_lt hi1]
      have hlt' : i - 1 < l.length := by omega
      rw [List.getElem?_eq_getElem hlt']
      have hval : l[i - 1] = ' ' := by
        have h9 := hsp
        rw [List.getD_eq_getElem?_getD, List.getElem?_eq_getElem hlt'] at h9
        simpa using h9
      rw [hval]
    simp [hlast]
  · intro hnone n hlastn
    unfold process_bytes
    simp only [hascii, Bool.not_true, Bool.false_eq_true, if_false, htrim,
      hstate, hempty, hnone, hlastn]
  · intro hnone hlastn
    unfold process_bytes
    simp only [hascii, Bool.not_true, Bool.false_eq_true, if_false, htrim,
      hstate, hempty, hnone, hlastn]

/-- Witness for C5 (amended) at concrete lines: ` x: 1` fails with
`SpaceBeforeColon`, and a colon-free continuation line is appended to the last
header entry. -/
theorem process_headers_spec_witness :
    process_bytes ⟨.Headers, ⟨[], [], none⟩⟩ ['x', ' ', ':', '1'] =
        .err (.Header .SpaceBeforeColon)
    ∧ process_bytes ⟨.Headers, ⟨[], [("host", "a")], some "host"⟩⟩
        ['.', 'o', 'r', 'g'] =
        .ok ⟨.Headers, ⟨[], [("host", "a.org")], some "host"⟩⟩ := by
  constructor
  · exact (process_headers_spec ⟨.Headers, ⟨[], [], none⟩⟩ ['x', ' ', ':', '1']
      rfl (by decide) (by decide) (by decide)).1 2 (by decide) (by decide)
      (by decide)
  · exact (process_headers_spec ⟨.Headers, ⟨[], [("host", "a")], some "host"⟩⟩
      ['.', 'o', 'r', 'g'] rfl (by decide) (by decide) (by decide)).2.1
      (by decide) "host" rfl

/-! ## Structured header values (src/req_parser.rs, `parse_header_value` and
friends).  The std `f32` parser used for quality values is an external
collaborator; it is modelled by a validity predicate `parseQ` on the raw
decimal text. -/

/-- Parse one `name=value` attribute pair (the lower-cased name `q` becomes
`Quality`, its value must be a valid float; anything else is stored with its
original spelling). -/
def parseAttrPair (parseQ : String → Bool) (n v : List Char) :
    Except ReqHeadParsingError (HeaderValueMemberName × HeaderValueMemberValue) :=
  if (n.map toAsciiLower).asString == "q" then
    if parseQ v.asString then .ok (.Quality, .Float v.asString)
    else .error (.Header .InvalidFloat)
  else .ok (.Other n.asString, .Other v.asString)

/-- Parse one `;`-separated attribute: split at `=`; one piece means a bare
name with empty value, two pieces a `name=value` pair, more fail with
`InvalidMime`. -/
def parseOneAttr (parseQ : String → Bool) (s : List Char) :
    Except ReqHeadParsingError (HeaderValueMemberName × HeaderValueMemberValue) :=
  match splitOnChar '=' s with
  | [n] => parseAttrPair parseQ n []
  | [n, v] => parseAttrPair parseQ n v
  | _ => .error (.Header .InvalidMime)

/-- Fold of the attribute loop of `parse_value_and_attr`: parse each attribute
in order and insert it into the map. -/
def parseAttrsAux (parseQ : String → Bool) (acc : MemberAttrs) :
    List (List Char) → Except ReqHeadParsingError MemberAttrs
  | [] => .ok acc
  | s :: rest =>
    match parseOneAttr parseQ s with
    | .error e => .error e
    | .ok kv => parseAttrsAux parseQ (attrsInsert kv.1 kv.2 acc) rest

/-- Model of `parse_value_and_attr`: when the value contains a `;`, the first
piece is the main value and the remaining pieces are attributes (parsed
first, as in the source); otherwise the whole string is the main value. -/
def parse_value_and_attr (parseQ : String → Bool)
    (mainParse : List Char → Except ReqHeadParsingError SimpleHeaderValue)
    (value_str : List Char) :
    Except ReqHeadParsingError (SimpleHeaderValue × MemberAttrs) :=
  if value_str.any (fun ch => ch == ';') then
    let parts := splitOnChar ';' value_str
    match parseAttrsAux parseQ [] parts.tail with
    | .error e => .error e
    | .ok attrs =>
      match mainParse (parts.headD []) with
      | .error e => .error e
      | .ok mv => .ok (mv, attrs)
  else
    match mainParse value_str with
    | .error e => .error e
    | .ok mv => .ok (mv, [])

/-- Sequence a fallible parser over a list (the `for` loop that pushes parsed
values, stopping at the first error). -/
def mapExcept (f : α → Except ReqHeadParsingError β) :
    List α → Except ReqHeadParsingError (List β)
  | [] => .ok []
  | a :: rest =>
    match f a with
    | .error e => .error e
    | .ok b =>
      match mapExcept f rest with
      | .error e => .error e
      | .ok bs => .ok (b :: bs)

/-- Model of `parse_header_value`: split the value at commas, trim each piece,
fail with `NoComponent` when there is no piece, parse every piece, and fail
with `NoComponent` when no piece was parsed. -/
def parse_header_value (parseQ : String → Bool)
    (mainParse : List Char → Except ReqHeadParsingError SimpleHeaderValue)
    (value : List Char) : Except ReqHeadParsingError HeaderValue :=
  let values := (splitOnChar ',' value).map trimList
  if values.isEmpty then .error (.Header .NoComponent)
  else
    match mapExcept (parse_value_and_attr parseQ mainParse) values with
    | .error e => .error e
    | .ok parsed =>
      if parsed.length = 0 then .error (.Header .NoComponent)
      else .ok (.Parsed parsed)

/-- The plain main-value parser used by `parse_header_value_plain`. -/
def mainPlain (v : List Char) : Except ReqHeadParsingError SimpleHeaderValue :=
  .ok (.Plain v.asString)

/-- Model of `parse_header_value_plain` (used for `Accept-Encoding` among
others). -/
def parse_header_value_plain (parseQ : String → Bool) (value : List Char) :
    Except ReqHeadParsingError HeaderValue :=
  parse_header_value parseQ mainPlain value

/-! ## Encoding selection (src/req_parser.rs, `extract_supported_encoding`
and the selection step of `do_parse`) -/

/-- The atoms recognised by `extract_supported_encoding`. -/
def encodingOfAtom : SimpleHeaderValue → Option SupportedEncoding
  | .Plain s =>
    if s == "gzip" then some .Gzip
    else if s == "deflate" then some .Deflate
    else if s == "zstd" then some .Zstd
    else if s == "br" then some .Br
    else none
  | _ => none

/-- Model of `extract_supported_encoding`: take the first recognised atom; if
none is recognised and the list is non-empty, fail with
`NoSupportedEncoding`; on an empty list the final `unwrap` panics. -/
def extract_supported_encoding (v : ParsedHeaderValue) :
    ParseOutcome SupportedEncoding :=
  let supported := (v.filterMap (fun p => encodingOfAtom p.1)).head?
  if supported.isNone && !v.isEmpty then .err .NoSupportedEncoding
  else
    match supported with
    | some e => .ok e
    | none => .panicked

/-- Model of the encoding-selection step of `do_parse`: when the
`Accept-Encoding` header is present with a `Parsed` value, run
`extract_supported_encoding` and propagate its error; otherwise choose no
encoding. -/
def doParseEncoding : Option HeaderValue → ParseOutcome (Option SupportedEncoding)
  | some (.Parsed v) =>
    match extract_supported_encoding v with
    | .ok e => .ok (some e)
    | .err e => .err e
    | .panicked => .panicked
  | _ => .ok none

/-- Claim-side description of the selection: the first atom whose string is
one of gzip, deflate, zstd, br. -/
def specFirstEncoding (v : ParsedHeaderValue) : Option SupportedEncoding :=
  (v.find? (fun p => (encodingOfAtom p.1).isSome)).bind
    (fun p => encodingOfAtom p.1)

theorem filterMap_head_eq_find_bind (f : α → Option β) (l : List α) :
    (l.filterMap f).head? = (l.find? (fun a => (f a).isSome)).bind f := by
  induction l with
  | nil => simp
  | cons a rest ih =>
    cases hf : f a with
    | none =>
      rw [List.filterMap_cons, hf]
      rw [List.find?_cons_of_neg _ (by simp [hf])]
      exact ih
    | some b =>
      rw [List.filterMap_cons, hf]
      rw [List.find?_cons_of_pos _ (by simp [hf])]
      simp [hf]

/-! ## Claim C2 -/

/-- C2 counterexample: an `Accept-Encoding` header present with an empty
value parses to the non-empty list `[""]`, and the encoding-selection step of
`do_parse` then fails with `NoSupportedEncoding` — it is not the case that an
empty value chooses no encoding without failing. -/
theorem accept_encoding_empty_value_counterexample :
    parse_header_value_plain (fun _ => true) [] =
        .ok (.Parsed [(.Plain "", [])])
    ∧ doParseEncoding (some (.Parsed [(.Plain "", [])])) =
        .err .NoSupportedEncoding := by
  constructor
  · rfl
  · rfl

/-- C2 (amended): if `Accept-Encoding` is absent no encoding is chosen and
the selection step does not fail; if it parsed to a (always non-empty) list,
the chosen encoding is the first atom among gzip, deflate, zstd, br, and when
no atom matches — including the single-empty-atom list produced by an empty
header value — the step fails with `NoSupportedEncoding`. -/
theorem accept_encoding_selection_spec :
    (doParseEncoding none = .ok none)
    ∧ (∀ v : ParsedHeaderValue, v ≠ [] →
        doParseEncoding (some (.Parsed v)) =
          match specFirstEncoding v with
          | some e => .ok (some e)
          | none => .err .NoSupportedEncoding)
    ∧ doParseEncoding (some (.Parsed [(.Plain "", [])])) =
        .err .NoSupportedEncoding := by
  refine ⟨rfl, ?_, rfl⟩
  intro v hv
  have hspec : specFirstEncoding v =
      (v.filterMap (fun p => encodingOfAtom p.1)).head? :=
    (filterMap_head_eq_find_bind _ v).symm
  have hemp : v.isEmpty = false := by
    cases v with
    | nil => exact absurd rfl hv
    | cons a as => rfl
  rw [hspec]
  unfold doParseEncoding extract_supported_encoding
  cases hs : (v.filterMap (fun p => encodingOfAtom p.1)).head? with
  | none => simp [hs, hemp]
  | some e => simp [hs, hemp]

/-- Witness for C2 (amended): a list whose first recognised atom is `gzip`
selects `Gzip`. -/
theorem accept_encoding_selection_witness :
    doParseEncoding (some (.Parsed [(.Plain "identity", []), (.Plain "gzip", [])])) =
      .ok (some .Gzip) := by
  have h := accept_encoding_selection_spec.2.1
    [(.Plain "identity", []), (.Plain "gzip", [])] (by decide)
  simpa [specFirstEncoding, encodingOfAtom, List.find?] using h

/-! ## Claim C9 -/

theorem parseOneAttr_error (parseQ : String → Bool) (s : List Char)
    (e : ReqHeadParsingError) (h : parseOneAttr parseQ s = .error e) :
    e = .Header .InvalidMime ∨ e = .Header .InvalidFloat := by
  unfold parseOneAttr at h
  cases hsp : splitOnChar '=' s with
  | nil => rw [hsp] at h; cases h; exact Or.inl rfl
  | cons n rest =>
    cases rest with
    | nil =>
      rw [hsp] at h
      unfold parseAttrPair at h
      by_cases hq : ((n.map toAsciiLower).asString == "q") = true
      · simp only [hq, if_pos] at h
        by_cases hp : parseQ (List.asString []) = true
        · simp [hp] at h
        · simp only [hp, Bool.false_eq_true, if_false] at h
          cases h
          exact Or.inr rfl
      · simp [hq] at h
    | cons v rest2 =>
      cases rest2 with
      | nil =>
        rw [hsp] at h
        unfold parseAttrPair at h
        by_cases hq : ((n.map toAsciiLower).asString == "q") = true
        · simp only [hq, if_pos] at h
          by_cases hp : parseQ v.asString = true
          · simp [hp] at h
          · simp only [hp, Bool.false_eq_true, if_false] at h
            cases h
            exact Or.inr rfl
        · simp [hq] at h
      | cons w rest3 =>
        rw [hsp] at h
        cases h
        exact Or.inl rfl

theorem parseAttrsAux_error (parseQ : String → Bool) (acc : MemberAttrs)
    (l : List (List Char)) (e : ReqHeadParsingError)
    (h : parseAttrsAux parseQ acc l = .error e) :
    e = .Header .InvalidMime ∨ e = .Header .InvalidFloat := by
  induction l generalizing acc with
  | nil => simp [parseAttrsAux] at h
  | cons s rest ih =>
    unfold parseAttrsAux at h
    cases ha : parseOneAttr parseQ s with
    | error e' =>
      rw [ha] at h
      cases h
      exact parseOneAttr_error parseQ s e ha
    | ok kv =>
      rw [ha] at h
      exact ih _ h

theorem parse_value_and_attr_error (parseQ : String → Bool)
    (mainParse : List Char → Except ReqHeadParsingError SimpleHeaderValue)
    (s : List Char) (e : ReqHeadParsingError)
    (h : parse_value_and_attr parseQ mainParse s = .error e) :
    e = .Header .InvalidMime ∨ e = .Header .InvalidFloat ∨
      ∃ t, mainParse t = .error e := by
  unfold parse_value_and_attr at h
  by_cases hsemi : (s.any (fun ch => ch == ';')) = true
  · simp only [hsemi, if_pos] at h
    cases hattrs : parseAttrsAux parseQ [] (splitOnChar ';' s).tail with
    | error e' =>
      rw [hattrs] at h
      cases h
      rcases parseAttrsAux_error parseQ [] _ e hattrs with h1 | h2
      · exact Or.inl h1
      · exact Or.inr (Or.inl h2)
    | ok attrs =>
      rw [hattrs] at h
      cases hm : mainParse ((splitOnChar ';' s).headD []) with
      | error e' =>
        rw [hm] at h
        cases h
        exact Or.inr (Or.inr ⟨_, hm⟩)
      | ok mv => rw [hm] at h; cases h
  · simp only [hsemi, Bool.false_eq_true, if_false] at h
    cases hm : mainParse s with
    | error e' =>
      rw [hm] at h
      cases h
      exact Or.inr (Or.inr ⟨_, hm⟩)
    | ok mv => rw [hm] at h; cases h

theorem mapExcept_length (f : α → Except ReqHeadParsingError β)
    (l : List α) (bs : List β) (h : mapExcept f l = .ok bs) :
    bs.length = l.length := by
  induction l generalizing bs with
  | nil =>
    unfold mapExcept at h
    cases h
    rfl
  | cons a rest ih =>
    unfold mapExcept at h
    cases ha : f a with
    | error e => rw [ha] at h; cases h
    | ok b =>
      rw [ha] at h
      cases hr : mapExcept f rest with
      | error e => rw [hr] at h; cases h
      | ok bs' =>
        rw [hr] at h
        cases h
        simpa using ih bs' hr

theorem mapExcept_error (f : α → Except ReqHeadParsingError β)
    (l : List α) (e : ReqHeadParsingError) (h : mapExcept f l = .error e) :
    ∃ a, a ∈ l ∧ f a = .error e := by
  induction l with
  | nil => simp [mapExcept] at h
  | cons a rest ih =>
    unfold mapExcept at h
    cases ha : f a with
    | error e' =>
      rw [ha] at h
      cases h
      exact ⟨a, List.mem_cons_self a rest, ha⟩
    | ok b =>
      rw [ha] at h
      cases hr : mapExcept f rest with
      | error e' =>
        rw [hr] at h
        cases h
        obtain ⟨a', ha', hf⟩ := ih hr
        exact ⟨a', List.mem_cons_of_mem a ha', hf⟩
      | ok bs => rw [hr] at h; cases h

theorem extract_ne_panicked (l : ParsedHeaderValue) (h : l ≠ []) :
    extract_supported_encoding l ≠ .panicked := by
  have hemp : l.isEmpty = false := by
    cases l with
    | nil => exact absurd rfl h
    | cons a as => rfl
  unfold extract_supported_encoding
  cases hs : (l.filterMap (fun p => encodingOfAtom p.1)).head? with
  | none => simp [hs, hemp]
  | some e => simp [hs, hemp]

/-- C9: splitting a header value at commas always yields at least one piece,
so `parse_header_value` either fails or returns a `Parsed` list with at least
one entry, its own `NoComponent` branches are unreachable (whenever the main
value parser cannot itself produce `NoComponent`), and the final `unwrap` of
`extract_supported_encoding` never panics on a list produced by
`parse_header_value`. -/
theorem parse_header_value_safety (parseQ : String → Bool)
    (mainParse : List Char → Except ReqHeadParsingError SimpleHeaderValue)
    (value : List Char) :
    1 ≤ (splitOnChar ',' value).length
    ∧ (∀ hv, parse_header_value parseQ mainParse value = .ok hv →
        ∃ l, hv = .Parsed l ∧ l ≠ [] ∧
          extract_supported_encoding l ≠ .panicked)
    ∧ ((∀ t, mainParse t ≠ .error (.Header .NoComponent)) →
        parse_header_value parseQ mainParse value ≠
          .error (.Header .NoComponent)) := by
  have hsplit : splitOnChar ',' value ≠ [] := splitOnChar_ne_nil ',' value
  have hvalues : ((splitOnChar ',' value).map trimList).isEmpty = false := by
    cases hs : splitOnChar ',' value with
    | nil => exact absurd hs hsplit
    | cons a as => rfl
  refine ⟨?_, ?_, ?_⟩
  · cases hs : splitOnChar ',' value with
    | nil => exact absurd hs hsplit
    | cons a as => simp
  · intro hv h
    unfold parse_header_value at h
    rw [if_neg (by simp [hvalues])] at h
    cases hm : mapExcept (parse_value_and_attr parseQ mainParse)
        ((splitOnChar ',' value).map trimList) with
    | error e => rw [hm] at h; cases h
    | ok parsed =>
      rw [hm] at h
      dsimp only at h
      by_cases hlen : parsed.length = 0
      · rw [if_pos hlen] at h; cases h
      · rw [if_neg hlen] at h
        cases h
        refine ⟨parsed, rfl, ?_, ?_⟩
        · intro hcon
          rw [hcon] at hlen
          simp at hlen
        · apply extract_ne_panicked
          intro hcon
          rw [hcon] at hlen
          simp at hlen
  · intro hmain h
    unfold parse_header_value at h
    rw [if_neg (by simp [hvalues])] at h
    cases hm : mapExcept (parse_value_and_attr parseQ mainParse)
        ((splitOnChar ',' value).map trimList) with
    | error e =>
      rw [hm] at h
      cases h
      obtain ⟨a, _, hf⟩ := mapExcept_error _ _ _ hm
      rcases parse_value_and_attr_error parseQ mainParse a _ hf with h1 | h2 | h3
      · cases h1
      · cases h2
      · obtain ⟨t, ht⟩ := h3
        exact hmain t ht
    | ok parsed =>
      rw [hm] at h
      dsimp only at h
      have hlen : parsed.length =
          ((splitOnChar ',' value).map trimList).length :=
        mapExcept_length _ _ _ hm
      have hpos : parsed.length ≠ 0 := by
        rw [hlen]
        cases hs : splitOnChar ',' value with
        | nil => exact absurd hs hsplit
        | cons a as => simp
      rw [if_neg hpos] at h
      cases h

/-- Witness for C9 at the concrete value `gzip`: the parse succeeds with a
one-entry list on which the extraction does not panic, and the result is not
`NoComponent`. -/
theorem parse_header_value_safety_witness :
    (∃ l, (HeaderValue.Parsed [(.Plain "gzip", [])]) = .Parsed l ∧ l ≠ [] ∧
      extract_supported_encoding l ≠ .panicked)
    ∧ parse_header_value (fun _ => true) mainPlain ['g', 'z', 'i', 'p'] ≠
        .error (.Header .NoComponent) := by
  constructor
  · exact (parse_header_value_safety (fun _ => true) mainPlain
      ['g', 'z', 'i', 'p']).2.1 (.Parsed [(.Plain "gzip", [])]) rfl
  · exact (parse_header_value_safety (fun _ => true) mainPlain
      ['g', 'z', 'i', 'p']).2.2 (by intro t; simp [mainPlain])

/-! ## Basic authentication (src/req_parser.rs, `parse_authorization_header`).
The base64 crate's standard engine and std UTF-8 validation are external
collaborators; they are modelled concretely below. -/

/-- Value of one character of the standard base64 alphabet. -/
def b64Val (c : Char) : Option Nat :=
  if 'A' ≤ c ∧ c ≤ 'Z' then some (c.toNat - 65)
  else if 'a' ≤ c ∧ c ≤ 'z' then some (c.toNat - 97 + 26)
  else if '0' ≤ c ∧ c ≤ '9' then some (c.toNat - 48 + 52)
  else if c = '+' then some 62
  else if c = '/' then some 63
  else none

/-- Model of `BASE64_STANDARD.decode`: groups of four alphabet characters,
canonical `=` padding allowed only at the end, zero trailing bits; every
other input (stray characters, bad length, misplaced padding) is rejected. -/
def base64Decode : List Char → Option (List Nat)
  | [] => some []
  | c1 :: c2 :: c3 :: c4 :: rest =>
    match b64Val c1, b64Val c2 with
    | some v1, some v2 =>
      if c3 = '=' then
        if c4 = '=' ∧ rest = [] ∧ v2 % 16 = 0 then some [v1 * 4 + v2 / 16]
        else none
      else
        match b64Val c3 with
        | some v3 =>
          if c4 = '=' then
            if rest = [] ∧ v3 % 4 = 0 then
              some [v1 * 4 + v2 / 16, (v2 % 16) * 16 + v3 / 4]
            else none
          else
            match b64Val c4 with
            | some v4 =>
              (base64Decode rest).map (fun bs =>
                (v1 * 4 + v2 / 16) :: ((v2 % 16) * 16 + v3 / 4) ::
                  ((v3 % 4) * 64 + v4) :: bs)
            | none => none
        | none => none
    | _, _ => none
  | _ => none

/-- Continuation byte of a UTF-8 sequence. -/
def isUtf8Cont (b : Nat) : Bool :=
  128 ≤ b && b ≤ 191

/-- Model of `String::from_utf8` (RFC 3629 validation plus decoding): decode
a byte list to characters, rejecting overlong forms, surrogates and
out-of-range sequences. -/
def utf8Decode? : List Nat → Option (List Char)
  | [] => some []
  | b :: rest =>
    if b < 128 then (utf8Decode? rest).map (fun cs => Char.ofNat b :: cs)
    else
      match rest with
      | [] => none
      | b2 :: rest2 =>
        if 194 ≤ b ∧ b ≤ 223 then
          if isUtf8Cont b2 then
            (utf8Decode? rest2).map (fun cs =>
              Char.ofNat ((b - 192) * 64 + (b2 - 128)) :: cs)
          else none
        else
          match rest2 with
          | [] => none
          | b3 :: rest3 =>
            if b = 224 ∨ (225 ≤ b ∧ b ≤ 236) ∨ b = 237 ∨ b = 238 ∨ b = 239 then
              if (if b = 224 then 160 ≤ b2 ∧ b2 ≤ 191
                  else if b = 237 then 128 ≤ b2 ∧ b2 ≤ 159
                  else isUtf8Cont b2 = true) ∧ isUtf8Cont b3 = true then
                (utf8Decode? rest3).map (fun cs =>
                  Char.ofNat ((b - 224) * 4096 + (b2 - 128) * 64 + (b3 - 128))
                    :: cs)
              else none
            else
              match rest3 with
              | [] => none
              | b4 :: rest4 =>
                if b = 240 ∨ (241 ≤ b ∧ b ≤ 243) ∨ b = 244 then
                  if (if b = 240 then 144 ≤ b2 ∧ b2 ≤ 191
                      else if b = 244 then 128 ≤ b2 ∧ b2 ≤ 143
                      else isUtf8Cont b2 = true) ∧
                      isUtf8Cont b3 = true ∧ isUtf8Cont b4 = true then
                    (utf8Decode? rest4).map (fun cs =>
                      Char.ofNat ((b - 240) * 262144 + (b2 - 128) * 4096 +
                        (b3 - 128) * 64 + (b4 - 128)) :: cs)
                  else none
                else none

/-- Model of `parse_authorization_header`: require the prefix `Basic ` with
at least one further character, base64-decode the second space-separated
token, decode it as UTF-8, split the result at the first colon into
credentials; every failure is `Header(InvalidBasicCredentials)`. -/
def parse_authorization_header (value_str : List Char) :
    Except ReqHeadParsingError HeaderValue :=
  if 6 < value_str.length ∧ value_str.take 6 = "Basic ".data then
    match (splitOnChar ' ' value_str).drop 1 with
    | [] => .error (.Header .InvalidBasicCredentials)
    | encoded :: _ =>
      match base64Decode encoded with
      | none => .error (.Header .InvalidBasicCredentials)
      | some bytes =>
        match utf8Decode? bytes with
        | none => .error (.Header .InvalidBasicCredentials)
        | some cs =>
          match findColonIdx cs with
          | some i =>
            .ok (.Credentials (cs.take i).asString (cs.drop (i + 1)).asString)
          | none => .error (.Header .InvalidBasicCredentials)
  else .error (.Header .InvalidBasicCredentials)

/-! ## Claim C8 -/

/-- C8 counterexample: on the value `Basic YTpi x` the parse succeeds with
credentials `a`/`b` although the remainder after `Basic ` (`YTpi x`) does not
base64-decode — the code decodes only the second space-separated token, not
the remainder as the claim states. -/
theorem parse_authorization_remainder_counterexample :
    parse_authorization_header "Basic YTpi x".data = .ok (.Credentials "a" "b")
    ∧ base64Decode ("Basic YTpi x".data.drop 6) = none := by
  constructor
  · rfl
  · rfl

/-- C8 (amended): parsing an Authorization value yields
`Credentials(user, pass)` iff the value starts with the literal `Basic `
followed by at least one character, the second space-separated token
base64-decodes to valid UTF-8, and the decoded string contains a colon; the
split is at the first colon, and every failure is
`Header(InvalidBasicCredentials)`. -/
theorem parse_authorization_spec (value_str : List Char) :
    (∀ u p, parse_authorization_header value_str = .ok (.Credentials u p) ↔
      (value_str.take 6 = "Basic ".data ∧ 6 < value_str.length ∧
        ∃ tok bytes cs i, (splitOnChar ' ' value_str)[1]? = some tok ∧
          base64Decode tok = some bytes ∧ utf8Decode? bytes = some cs ∧
          findColonIdx cs = some i ∧ u = (cs.take i).asString ∧
          p = (cs.drop (i + 1)).asString))
    ∧ (∀ e, parse_authorization_header value_str = .error e →
        e = .Header .InvalidBasicCredentials)
    ∧ (∀ hv, parse_authorization_header value_str = .ok hv →
        ∃ u p, hv = .Credentials u p) := by
  unfold parse_authorization_header
  by_cases hpre : 6 < value_str.length ∧ value_str.take 6 = "Basic ".data
  · rw [if_pos hpre]
    have hget : (splitOnChar ' ' value_str)[1]? =
        ((splitOnChar ' ' value_str).drop 1).head? := by
      rw [List.head?_drop]
    cases hdrop : (splitOnChar ' ' value_str).drop 1 with
    | nil =>
      rw [hdrop] at hget
      refine ⟨?_, ?_, ?_⟩
      · intro u p
        simp [hget]
      · intro e he
        cases he
        rfl
      · intro hv h
        cases h
    | cons encoded rest =>
      rw [hdrop] at hget
      simp only [List.head?_cons] at hget
      dsimp only
      cases hb64 : base64Decode encoded with
      | none =>
        dsimp only
        refine ⟨?_, ?_, ?_⟩
        · intro u p
          simp [hget, hb64]
        · intro e he
          cases he
          rfl
        · intro hv h
          cases h
      | some bytes =>
        dsimp only
        cases hutf : utf8Decode? bytes with
        | none =>
          dsimp only
          refine ⟨?_, ?_, ?_⟩
          · intro u p
            simp [hget, hb64, hutf]
          · intro e he
            cases he
            rfl
          · intro hv h
            cases h
        | some cs =>
          dsimp only
          cases hcol : findColonIdx cs with
          | none =>
            dsimp only
            refine ⟨?_, ?_, ?_⟩
            · intro u p
              simp [hget, hb64, hutf, hcol]
            · intro e he
              cases he
              rfl
            · intro hv h
              cases h
          | some i =>
            dsimp only
            refine ⟨?_, ?_, ?_⟩
            · intro u p
              simp only [Except.ok.injEq, HeaderValue.Credentials.injEq]
              constructor
              · intro h
                exact ⟨hpre.2, hpre.1,
                  encoded, bytes, cs, i, hget, hb64, hutf, hcol,
                  h.1.symm, h.2.symm⟩
              · intro h
                obtain ⟨-, -, tok, bytes', cs', i', htok, hb', hu', hc', hup, hpp⟩ := h
                rw [hget] at htok
                cases htok
                rw [hb64] at hb'
                cases hb'
                rw [hutf] at hu'
                cases hu'
                rw [hcol] at hc'
                cases hc'
                exact ⟨hup.symm, hpp.symm⟩
            · intro e he
              cases he
            · intro hv h
              cases h
              exact ⟨_, _, rfl⟩
  · rw [if_neg hpre]
    refine ⟨?_, ?_, ?_⟩
    · intro u p
      constructor
      · intro h
        cases h
      · intro h
        exact absurd ⟨h.2.1, h.1⟩ hpre
    · intro e he
      cases he
      rfl
    · intro hv h
      cases h

/-- Witness for C8 (amended) at the value `Basic YWRtaW46cGFzcw==`
(credentials `admin`/`pass`). -/
theorem parse_authorization_spec_witness :
    parse_authorization_header "Basic YWRtaW46cGFzcw==".data =
      .ok (.Credentials "admin" "pass") := by
  have h := (parse_authorization_spec "Basic YWRtaW46cGFzcw==".data).1
    "admin" "pass"
  refine h.mpr ?_
  refine ⟨by decide, by decide,
    "YWRtaW46cGFzcw==".data, "admin:pass".data.map Char.toNat,
    "admin:pass".data, 5, ?_, ?_, ?_, ?_, ?_, ?_⟩
  · decide
  · decide
  · decide
  · decide
  · decide
  · decide

/-! ## Path-traversal gate (src/server.rs, `serve_static_resource`) -/

/-- Components of a path string as Rust's `Path::components` yields them:
split at `/`, dropping empty pieces and `.`; a `..` piece is kept as an
ordinary component (it is not resolved). -/
def pathComponents (s : List Char) : List (List Char) :=
  (splitOnChar '/' s).filter (fun c => !(c.isEmpty || c == ['.']))

/-- A path is absolute when it starts with `/`. -/
def pathIsAbsolute (s : List Char) : Bool :=
  s.head? == some '/'

/-- Model of `Path::starts_with`: component-wise prefix test (with matching
absoluteness). -/
def rustPathStartsWith (p base : List Char) : Bool :=
  (pathIsAbsolute p == pathIsAbsolute base)
    && (pathComponents base).isPrefixOf (pathComponents p)

/-- Model of the gate in `serve_static_resource`: compose
`full = document_root + decoded_path` by string concatenation and require
`full.starts_with(document_root)`; the handler answers 403 exactly when this
is false. -/
def serverTraversalCheckPasses (document_root decoded_path : List Char) : Bool :=
  rustPathStartsWith (document_root ++ decoded_path) document_root

/-- Modelled from the spec: `canonicalize` resolves a path to its unique
absolute form (spec glossary "Canonicalization"), i.e. `..` components pop
the previous component; symlink resolution and existence checks of the real
filesystem are outside the model. -/
def canonicalizeComponents (comps : List (List Char)) : List (List Char) :=
  comps.foldl
    (fun acc c => if c == ['.', '.'] then acc.dropLast else acc ++ [c]) []

/-- Claim-side check of C1:
`canonicalize(document_root + decoded_path).starts_with(document_root)` (the
document root is canonical already, per startup). -/
def specTraversalCheckPasses (document_root decoded_path : List Char) : Bool :=
  (pathComponents document_root).isPrefixOf
    (canonicalizeComponents (pathComponents (document_root ++ decoded_path)))

/-! ## Claim C1 -/

/-- C1: at the decoded path `/../README.md` (the path-traversal probe of the
repository's own integration test, which expects 403) the gate of
`serve_static_resource` passes — `Path::starts_with` treats `..` as an
ordinary component, so no 403 is produced and the file outside the root is
opened — while the canonicalized path demanded by the claim does not start
with the document root. -/
theorem path_traversal_gate_code_bug :
    serverTraversalCheckPasses "/srv/www".data "/../README.md".data = true
    ∧ specTraversalCheckPasses "/srv/www".data "/../README.md".data = false := by
  constructor
  · decide
  · decide

/-! ## Directory listing (src/res_builder.rs, `list_directory`) -/

/-- Lexicographic comparison of character lists: the Boolean form of Rust's
byte-wise `cmp` on strings (`charListLE as bs` is `cmp(as, bs) != Greater`;
UTF-8 byte order and codepoint order agree). -/
def charListLE : List Char → List Char → Bool
  | [], _ => true
  | _ :: _, [] => false
  | a :: as, b :: bs => if a = b then charListLE as bs else decide (a < b)

theorem charListLE_total (as : List Char) :
    ∀ bs, charListLE as bs = true ∨ charListLE bs as = true := by
  induction as with
  | nil => intro bs; exact Or.inl rfl
  | cons a as ih =>
    intro bs
    cases bs with
    | nil => exact Or.inr rfl
    | cons b bs =>
      by_cases hab : a = b
      · subst hab
        rcases ih bs with h | h
        · exact Or.inl (by simp only [charListLE, if_pos rfl]; exact h)
        · exact Or.inr (by simp only [charListLE, if_pos rfl]; exact h)
      · rcases lt_or_gt_of_ne hab with h | h
        · refine Or.inl ?_
          simp only [charListLE]
          rw [if_neg hab]
          exact decide_eq_true h
        · refine Or.inr ?_
          simp only [charListLE]
          rw [if_neg (Ne.symm hab)]
          exact decide_eq_true h

theorem charListLE_trans (as : List Char) :
    ∀ bs cs, charListLE as bs = true → charListLE bs cs = true →
      charListLE as cs = true := by
  induction as with
  | nil => intro bs cs hab hbc; rfl
  | cons a as ih =>
    intro bs cs hab hbc
    cases bs with
    | nil => exact absurd hab (by simp [charListLE])
    | cons b bs =>
      cases cs with
      | nil => exact absurd hbc (by simp [charListLE])
      | cons c cs =>
        simp only [charListLE] at hab hbc ⊢
        by_cases hab1 : a = b
        · subst hab1
          rw [if_pos rfl] at hab
          by_cases hbc1 : a = c
          · subst hbc1
            rw [if_pos rfl] at hbc ⊢
            exact ih bs cs hab hbc
          · rw [if_neg hbc1] at hbc ⊢
            exact hbc
        · rw [if_neg hab1] at hab
          have habl : a < b := of_decide_eq_true hab
          by_cases hbc1 : b = c
          · subst hbc1
            rw [if_neg hab1]
            exact hab
          · rw [if_neg hbc1] at hbc
            have hbcl : b < c := of_decide_eq_true hbc
            have hac : a < c := lt_trans habl hbcl
            rw [if_neg (ne_of_lt hac)]
            exact decide_eq_true hac

/-- Boolean comparison of file names (Rust `String::cmp`, as `≤`). -/
def nameLE (a b : String) : Bool := charListLE a.data b.data

theorem nameLE_total (a b : String) : nameLE a b = true ∨ nameLE b a = true :=
  charListLE_total a.data b.data

theorem nameLE_trans (a b c : String) (hab : nameLE a b = true)
    (hbc : nameLE b c = true) : nameLE a c = true :=
  charListLE_trans a.data b.data c.data hab hbc

/-- Boolean form of the sort comparator of `list_directory` (an entry is a
file name paired with its is-directory flag): directories sort before files,
and entries of the same kind compare by name; `entryLE a b` is
`cmp(a, b) != Greater`. -/
def entryLE (a b : String × Bool) : Bool :=
  match a.2, b.2 with
  | true, false => true
  | false, true => false
  | _, _ => nameLE a.1 b.1

/-- The comparator as a decidable relation, for sorting. -/
def entryRel (a b : String × Bool) : Prop := entryLE a b = true

instance : DecidableRel entryRel := fun a b => Bool.decEq (entryLE a b) true

instance : IsTotal (String × Bool) entryRel := by
  constructor
  intro a b
  obtain ⟨na, da⟩ := a
  obtain ⟨nb, db⟩ := b
  cases da <;> cases db
  · rcases nameLE_total na nb with h | h
    · exact Or.inl h
    · exact Or.inr h
  · exact Or.inr rfl
  · exact Or.inl rfl
  · rcases nameLE_total na nb with h | h
    · exact Or.inl h
    · exact Or.inr h

instance : IsTrans (String × Bool) entryRel := by
  constructor
  intro a b c hab hbc
  obtain ⟨na, da⟩ := a
  obtain ⟨nb, db⟩ := b
  obtain ⟨nc, dc⟩ := c
  cases da <;> cases db <;> cases dc
  · exact nameLE_trans na nb nc hab hbc
  · exact Bool.noConfusion hbc
  · exact Bool.noConfusion hab
  · exact Bool.noConfusion hab
  · exact rfl
  · exact Bool.noConfusion hbc
  · exact rfl
  · exact nameLE_trans na nb nc hab hbc

/-- Entry list of `list_directory`: a `..` directory entry is prepended when
the relative path is not `/`, the entries read from the directory follow, and
the whole vector is stably sorted by the comparator. -/
def listDirEntries (rel_path : String) (entries : List (String × Bool)) :
    List (String × Bool) :=
  let init : List (String × Bool) :=
    if rel_path == "/" then [] else [("..", true)]
  List.insertionSort entryRel (init ++ entries)

/-- Model of `rel_path.trim_end_matches("/")`: drop every trailing slash. -/
def trimEndSlashes (s : String) : String :=
  ((s.data.reverse.dropWhile (fun c => c == '/')).reverse).asString

/-- One `<li>` item of the listing: the link joins the relative path and the
file name with a single `/`, and the displayed name of a directory carries a
trailing `/`. -/
def dirItemHtml (rel_path : String) (e : String × Bool) : String :=
  let sep := if rel_path == "/" then "" else "/"
  "<li><pre><a href=\"" ++ (trimEndSlashes rel_path ++ sep ++ e.1) ++ "\">"
    ++ e.1 ++ (if e.2 then "/" else "") ++ "</a></pre></li>"

/-- Model of the HTML page produced by `list_directory` (the `format!`
template of the source, with the title `Index of {rel_path}` used in the
`<title>` and `<h1>` elements and the folded item list in the `<ul>`). -/
def listDirectoryHtml (rel_path : String) (entries : List (String × Bool)) :
    String :=
  let title := "Index of " ++ rel_path
  let items := (listDirEntries rel_path entries).foldl
    (fun acc e => acc ++ dirItemHtml rel_path e) ""
  "<!DOCTYPE HTML> <html lang=\"en\"> <head> <meta charset=\"utf-8\"/> "
    ++ "<title>" ++ title ++ "</title>"
    ++ " </head> <body> " ++ "<h1>" ++ title ++ "</h1>"
    ++ " <hr/> <ul>" ++ items ++ "</ul> <hr/> </body> </html> \r\n"

/-! ## Claim C7 -/

/-- C7 counterexample: in a directory containing a directory named `!`, the
listing for the non-root path `/x` does not have `..` as its leading entry —
the `..` entry is prepended before sorting and `!` sorts before `..` among
directories. -/
theorem list_directory_leading_dotdot_counterexample :
    ("/x" : String) ≠ "/"
    ∧ (listDirEntries "/x" [("!", true)]).head? = some ("!", true) := by
  constructor
  · decide
  · decide

/-- C7 (amended): for every readable directory (whose real entries never
include `..`), the produced page is titled `Index of {rel_path}`, the entry
list is sorted with directories before files and each group ordered by name,
it contains a `..` parent entry (prepended before sorting) exactly when the
relative path is not `/`, and the displayed name of every directory entry
carries a trailing `/`. -/
theorem list_directory_spec (rel_path : String)
    (entries : List (String × Bool)) (hdd : ∀ b, ("..", b) ∉ entries) :
    (("..", true) ∈ listDirEntries rel_path entries ↔ rel_path ≠ "/")
    ∧ List.Sorted entryRel (listDirEntries rel_path entries)
    ∧ (∀ e ∈ listDirEntries rel_path entries, e.2 = true →
        ∃ pre post, dirItemHtml rel_path e = pre ++ (e.1 ++ "/") ++ post)
    ∧ (∃ post, listDirectoryHtml rel_path entries =
        "<!DOCTYPE HTML> <html lang=\"en\"> <head> <meta charset=\"utf-8\"/> "
          ++ "<title>" ++ ("Index of " ++ rel_path) ++ "</title>" ++ post) := by
  refine ⟨?_, ?_, ?_, ?_⟩
  · unfold listDirEntries
    rw [List.mem_insertionSort]
    by_cases hrel : rel_path = "/"
    · have hb : (rel_path == "/") = true := beq_iff_eq.mpr hrel
      simp only [hb, if_pos, List.nil_append]
      constructor
      · intro hmem
        exact absurd hmem (hdd true)
      · intro hne
        exact absurd hrel hne
    · have hb : (rel_path == "/") = false := beq_eq_false_iff_ne.mpr hrel
      simp only [hb, Bool.false_eq_true, if_false]
      constructor
      · intro _
        exact hrel
      · intro _
        exact List.mem_append_left _ (List.mem_singleton.mpr rfl)
  · exact List.sorted_insertionSort entryRel _
  · intro e hmem he2
    refine ⟨"<li><pre><a href=\"" ++
      (trimEndSlashes rel_path ++ (if rel_path == "/" then "" else "/") ++ e.1)
      ++ "\">", "</a></pre></li>", ?_⟩
    unfold dirItemHtml
    rw [he2]
    simp [String.append_assoc]
  · refine ⟨" </head> <body> " ++ "<h1>" ++ ("Index of " ++ rel_path) ++ "</h1>"
      ++ " <hr/> <ul>" ++ ((listDirEntries rel_path entries).foldl
        (fun acc e => acc ++ dirItemHtml rel_path e) "")
      ++ "</ul> <hr/> </body> </html> \r\n", ?_⟩
    have hsplit : ∀ x : String,
        ("</title> </head> <body> <h1>" : String) ++ x =
          "</title>" ++ (" </head> <body> <h1>" ++ x) := by
      intro x
      rw [← String.append_assoc]
      rfl
    unfold listDirectoryHtml
    simp [String.append_assoc, hsplit]

/-- Witness for C7 (amended) at the sub-directory listing of the integration
test (`/subdir` containing one file): `..` is present, the list is sorted,
directory entries are displayed with a trailing slash and the page carries
the title `Index of /subdir`. -/
theorem list_directory_spec_witness :
    (("..", true) ∈ listDirEntries "/subdir" [("lipsum-alt.txt", false)] ↔
      ("/subdir" : String) ≠ "/")
    ∧ List.Sorted entryRel (listDirEntries "/subdir" [("lipsum-alt.txt", false)])
    ∧ (∀ e ∈ listDirEntries "/subdir" [("lipsum-alt.txt", false)], e.2 = true →
        ∃ pre post, dirItemHtml "/subdir" e = pre ++ (e.1 ++ "/") ++ post)
    ∧ (∃ post, listDirectoryHtml "/subdir" [("lipsum-alt.txt", false)] =
        "<!DOCTYPE HTML> <html lang=\"en\"> <head> <meta charset=\"utf-8\"/> "
          ++ "<title>" ++ ("Index of " ++ "/subdir") ++ "</title>" ++ post) :=
  list_directory_spec "/subdir" [("lipsum-alt.txt", false)]
    (by intro b hmem; simp at hmem)
